import Mathlib

/-!
# Verification of the TankX real-time triangular-arbitrage engine

Shallow embedding of `arbitrage_detector.py`:

* `check_if_triangle`, `check_circular_pairs`, `find_combinations_of_3`,
  `find_correct_triangles` — the Triangle Finder;
* `innerScan` / `outerScan` / `findChainMatch` / `chainAssign` — the first-match
  nested-loop search at the top of `calculate_triangular_arbitrage` that assigns
  the canonical legs `AB`, `BC`, `AC` (including Python's negative-index
  wrap-around and out-of-range `IndexError`, modelled through `pyGet`);
* `evalTriangle` / `calcArb` — the rate computation and the publication into the
  result map (`Decimal` prices are modelled as exact rationals `ℚ`; a division
  by a zero quote, a missing book-ticker entry, or a failed chain search raises
  in Python and publishes nothing, modelled as `none`);
* `updateStore` / `buildStore` / `countReady` / `invoked` / `dispatchRun` — the
  quote store and the per-tick dispatch loop of `on_message`.
-/

/-- A trading-pair record as built by `fetch_trading_pairs`:
`{symbol: AB, left: A, right: B}` (base asset `left`, quote asset `right`). -/
structure TradingPair where
  symbol : String
  left : String
  right : String
deriving DecidableEq

/-- `check_if_triangle`: the number of distinct assets appearing as a base or a
quote across the given pairs (the Python set
`{item["left"] for item in data} | {item["right"] for item in data}`). -/
def check_if_triangle (data : List TradingPair) : Nat :=
  ((data.map (·.left)).toFinset ∪ (data.map (·.right)).toFinset).card

/-- `check_circular_pairs`: `true` iff no earlier pair is the mirror image of a
later pair (the Python double loop over `i < j`). -/
def check_circular_pairs : List TradingPair → Bool
  | [] => true
  | p :: rest =>
    rest.all (fun q => !(decide (p.left = q.right) && decide (p.right = q.left))) &&
      check_circular_pairs rest

/-- `find_combinations_of_3`: all 3-element combinations of the input list, each
keeping the input's relative order (`itertools.combinations(data, 3)`). -/
def find_combinations_of_3 (data : List TradingPair) : List (List TradingPair) :=
  List.sublistsLen 3 data

/-- `find_correct_triangles`: keep the 3-combinations spanning exactly three
assets and containing no mirror pair. -/
def find_correct_triangles (all_trading_pairs : List TradingPair) :
    List (List TradingPair) :=
  (find_combinations_of_3 all_trading_pairs).filter
    (fun c => decide (check_if_triangle c = 3) && check_circular_pairs c)

/-- The inner `for count2, element2 in enumerate(trading_pairs)` loop of
`calculate_triangular_arbitrage`: index of the first pair whose base (`left`)
equals `e1`'s quote (`right`), if any. -/
def innerScan (e1 : TradingPair) : List TradingPair → Option Nat
  | [] => none
  | e2 :: rest =>
    if e1.right = e2.left then some 0 else (innerScan e1 rest).map (· + 1)

/-- The outer `for count1, element1 in enumerate(trading_pairs)` loop: the first
`(count1, count2)` in lexicographic loop order such that
`trading_pairs[count1].right == trading_pairs[count2].left`. -/
def outerScan (tps : List TradingPair) : List TradingPair → Option (Nat × Nat)
  | [] => none
  | e1 :: rest =>
    match innerScan e1 tps with
    | some c2 => some (0, c2)
    | none => (outerScan tps rest).map (fun ij => (ij.1 + 1, ij.2))

/-- The first match `(count1, count2)` found by the nested loops, if any. -/
def findChainMatch (tps : List TradingPair) : Option (Nat × Nat) :=
  outerScan tps tps

/-- Python list indexing `l[i]`: a negative index wraps around once
(`l[-1]` is the last element); an index out of range raises, modelled `none`. -/
def pyGet (l : List TradingPair) (i : Int) : Option TradingPair :=
  let j : Int := if i < 0 then i + l.length else i
  if 0 ≤ j then l.get? j.toNat else none

/-- The leg-assignment prefix of `calculate_triangular_arbitrage`:
`AB = element1`, `BC = element2`, `AC = trading_pairs[len(trading_pairs) - count1 - count2]`
at the first match.  `none` models the Python crash when no match is found
(`AB` stays `None` and is subscripted) or when the `AC` index raises. -/
def chainAssign (tps : List TradingPair) :
    Option (TradingPair × TradingPair × TradingPair) :=
  match findChainMatch tps with
  | none => none
  | some (c1, c2) =>
    match tps.get? c1, tps.get? c2, pyGet tps ((tps.length : Int) - c1 - c2) with
    | some ab, some bc, some ac => some (ab, bc, ac)
    | _, _, _ => none

/-- A book-ticker entry: best ask `a` and best bid `b`.  The Python code parses
the quoted strings with `Decimal`; prices are modelled as exact rationals. -/
structure Quote where
  a : ℚ
  b : ℚ
deriving DecidableEq

/-- `self.book_ticker_data`: the latest quote per symbol, absent if the symbol
was never quoted. -/
def BookTicker : Type := String → Option Quote

/-- `self.book_ticker_data[data["s"]] = data`: overwrite one symbol's quote. -/
def updateStore (store : BookTicker) (sym : String) (q : Quote) : BookTicker :=
  fun s => if s = sym then some q else store s

/-- The store before any tick arrived. -/
def emptyStore : BookTicker := fun _ => none

/-- The store after ingesting a sequence of ticks in order, starting empty. -/
def buildStore (ticks : List (String × Quote)) : BookTicker :=
  ticks.foldl (fun st t => updateStore st t.1 t.2) emptyStore

/-- One published entry of `self.result`: the three ask legs, the three bid
legs, and the `"YES"`/`"NO"` arbitrage flag (the Python value is the same data
rendered into two newline-joined strings plus the flag). -/
structure ResultEntry where
  askLegs : List (String × ℚ)
  bidLegs : List (String × ℚ)
  flag : String
deriving DecidableEq

/-- `self.result`: the map from triangle code to the latest published entry. -/
def ResultMap : Type := String → Option ResultEntry

/-- The result map with no entry published yet. -/
def emptyResult : ResultMap := fun _ => none

/-- `self.result[arbitrage_code] = [...]`: overwrite one code's entry. -/
def publish (res : ResultMap) (code : String) (e : ResultEntry) : ResultMap :=
  fun s => if s = code then some e else res s

/-- The triangle code of line 190: `f"{AB['left']}-{AB['right']}-{BC['right']}"`. -/
def arbitrage_code (ab bc : TradingPair) : String :=
  ab.left ++ "-" ++ ab.right ++ "-" ++ bc.right

/-- The body of `calculate_triangular_arbitrage` for one triangle: assign the
legs, read the three quotes, compute
`condition1 = ask_AB * ask_BC * (1 / bid_AC)` and
`condition2 = bid_AB * bid_BC * (1 / ask_AC)`, and produce the entry keyed by
the triangle code.  `none` models every Python exception on this path: a failed
leg assignment, a missing book-ticker key, and `Decimal` division by a zero
`bid_AC` or `ask_AC` (the only divisions performed). -/
def evalTriangle (store : BookTicker) (tps : List TradingPair) :
    Option (String × ResultEntry) :=
  match chainAssign tps with
  | none => none
  | some (ab, bc, ac) =>
    match store ab.symbol, store bc.symbol, store ac.symbol with
    | some qAB, some qBC, some qAC =>
      if qAC.b = 0 ∨ qAC.a = 0 then none
      else
        let condition1 := qAB.a * qBC.a * (1 / qAC.b)
        let condition2 := qAB.b * qBC.b * (1 / qAC.a)
        some (arbitrage_code ab bc,
          { askLegs := [(ab.symbol, qAB.a), (bc.symbol, qBC.a), (ac.symbol, qAC.a)]
            bidLegs := [(ab.symbol, qAB.b), (bc.symbol, qBC.b), (ac.symbol, qAC.b)]
            flag := if condition1 < 1 ∨ condition2 > 1 then "YES" else "NO" })
    | _, _, _ => none

/-- One evaluation as seen from the result map: on success the entry is
published under its code, on an evaluation error the map is left unchanged. -/
def calcArb (store : BookTicker) (res : ResultMap) (tps : List TradingPair) :
    ResultMap :=
  match evalTriangle store tps with
  | none => res
  | some (code, e) => publish res code e

/-- `count = sum(1 for trading_pair in target if trading_pair["symbol"] in
self.book_ticker_data)`: how many legs of the triangle have a stored quote. -/
def countReady (store : BookTicker) (t : List TradingPair) : Nat :=
  (t.filter (fun p => (store p.symbol).isSome)).length

/-- The triangles for which `on_message`'s loop invokes
`calculate_triangular_arbitrage` on one tick: every triangle with all three
legs quoted, in list order, cut short after a triangle whose evaluation raises
(the exception aborts the loop, with that triangle still having been invoked). -/
def invoked (store : BookTicker) : List (List TradingPair) → List (List TradingPair)
  | [] => []
  | t :: rest =>
    if countReady store t = 3 then
      if (evalTriangle store t).isSome then t :: invoked store rest else [t]
    else invoked store rest

/-- The result map produced by `on_message`'s loop over the triangles: each
ready triangle's entry is published in turn; an evaluation error aborts the
loop, keeping what was already published this tick. -/
def dispatchRun (store : BookTicker) (res : ResultMap) :
    List (List TradingPair) → ResultMap
  | [] => res
  | t :: rest =>
    if countReady store t = 3 then
      match evalTriangle store t with
      | none => res
      | some (code, e) => dispatchRun store (publish res code e) rest
    else dispatchRun store res rest

/-- `on_message`: store the tick's quote under its symbol, then run the
dispatch loop over all discovered triangles. -/
def on_message (triangles : List (List TradingPair)) (store : BookTicker)
    (res : ResultMap) (sym : String) (q : Quote) : BookTicker × ResultMap :=
  let store' := updateStore store sym q
  (store', dispatchRun store' res triangles)

/-- Modelled from the spec: the parser of a triangle display code.  The
repository never parses codes back; §8's round-trip property reads the code
"when parsed back, recovers the same ordered asset triple", so the parser
splits the code on the `"-"` separator. -/
def parseCode (s : String) : List String :=
  (s.data.splitOn '-').map (fun l => String.mk l)

/-- The display code of a triangle, through the leg assignment. -/
def triangleCode (tps : List TradingPair) : Option String :=
  (chainAssign tps).map (fun x => arbitrage_code x.1 x.2.1)

/-- The `ETHBTC` pair of §8's scenario catalog. -/
def ethbtc : TradingPair := ⟨"ETHBTC", "ETH", "BTC"⟩

/-- The `BNBETH` pair of §8's scenario catalog. -/
def bnbeth : TradingPair := ⟨"BNBETH", "BNB", "ETH"⟩

/-- The `BNBBTC` pair of §8's scenario catalog. -/
def bnbbtc : TradingPair := ⟨"BNBBTC", "BNB", "BTC"⟩

/-- §8's scenario catalog. -/
def catalog8 : List TradingPair := [ethbtc, bnbeth, bnbbtc]

/-- `check_circular_pairs` succeeds exactly when no two pairs of the list are
mirror images of one another. -/
lemma check_circular_pairs_eq_true_iff (l : List TradingPair) :
    check_circular_pairs l = true ↔
      l.Pairwise (fun a b => ¬(a.left = b.right ∧ a.right = b.left)) := by
  induction l with
  | nil => simp [check_circular_pairs]
  | cons p rest ih =>
    simp only [check_circular_pairs, Bool.and_eq_true, List.all_eq_true,
      Bool.not_eq_true', Bool.and_eq_false_iff, decide_eq_false_iff_not,
      List.pairwise_cons, ih]
    constructor
    · rintro ⟨h1, h2⟩
      refine ⟨fun q hq hc => ?_, h2⟩
      rcases h1 q hq with h | h
      · exact h hc.1
      · exact h hc.2
    · rintro ⟨h1, h2⟩
      refine ⟨fun q hq => ?_, h2⟩
      by_cases hl : p.left = q.right
      · exact Or.inr (fun hr => h1 q hq ⟨hl, hr⟩)
      · exact Or.inl hl

/-- Membership in the finder's output: a 3-element combination of the catalog
that spans exactly three assets and has no mirror pair. -/
lemma mem_find_correct_triangles {pairs t : List TradingPair} :
    t ∈ find_correct_triangles pairs ↔
      (t.Sublist pairs ∧ t.length = 3) ∧ check_if_triangle t = 3 ∧
        check_circular_pairs t = true := by
  simp only [find_correct_triangles, find_combinations_of_3, List.mem_filter,
    List.mem_sublistsLen, Bool.and_eq_true, decide_eq_true_eq]

/-- C6: every triangle accepted by the Triangle Finder spans exactly three
distinct assets across the bases and quotes of its three legs. -/
theorem accepted_triangle_spans_three_assets (pairs t : List TradingPair)
    (h : t ∈ find_correct_triangles pairs) :
    ((t.map (·.left)).toFinset ∪ (t.map (·.right)).toFinset).card = 3 :=
  (mem_find_correct_triangles.mp h).2.1

/-- Witness for C6 on §8's scenario catalog. -/
theorem accepted_triangle_spans_three_assets_witness :
    [ethbtc, bnbeth, bnbbtc] ∈ find_correct_triangles catalog8 ∧
      (([ethbtc, bnbeth, bnbbtc].map (·.left)).toFinset ∪
        ([ethbtc, bnbeth, bnbbtc].map (·.right)).toFinset).card = 3 :=
  ⟨by decide, accepted_triangle_spans_three_assets catalog8 _ (by decide)⟩

/-- C7: no triangle accepted by the Triangle Finder contains two legs that are
mirror images of each other (same two assets with base and quote reversed). -/
theorem accepted_triangle_has_no_mirror_legs (pairs t : List TradingPair)
    (h : t ∈ find_correct_triangles pairs) :
    t.Pairwise (fun a b => ¬(a.left = b.right ∧ a.right = b.left)) :=
  (check_circular_pairs_eq_true_iff t).mp (mem_find_correct_triangles.mp h).2.2

/-- Witness for C7 on §8's scenario catalog. -/
theorem accepted_triangle_has_no_mirror_legs_witness :
    [ethbtc, bnbeth, bnbbtc] ∈ find_correct_triangles catalog8 ∧
      List.Pairwise (fun a b : TradingPair =>
        ¬(a.left = b.right ∧ a.right = b.left)) [ethbtc, bnbeth, bnbbtc] :=
  ⟨by decide, accepted_triangle_has_no_mirror_legs catalog8 _ (by decide)⟩

/-- C8 counterexample: on §8's scenario catalog the finder produces exactly one
triangle, but the code the evaluator derives for it is `"BNB-ETH-BTC"`, which
is not `"ETH-BNB-BTC"` nor any cyclic rotation of it (it is a rotation of the
reversed traversal). -/
theorem scenario_code_not_a_rotation :
    find_correct_triangles catalog8 = [[ethbtc, bnbeth, bnbbtc]] ∧
      triangleCode [ethbtc, bnbeth, bnbbtc] = some "BNB-ETH-BTC" ∧
      "BNB-ETH-BTC" ∉ (["ETH-BNB-BTC", "BNB-BTC-ETH", "BTC-ETH-BNB"] : List String) := by
  refine ⟨by decide, by decide, by decide⟩

/-- C8 (amended): §8's scenario catalog yields exactly one triangle, whose
canonical legs are `AB = BNBETH`, `BC = ETHBTC`, `AC = BNBBTC`, and whose
derived display code is `"BNB-ETH-BTC"` — the cycle traversed BNB→ETH→BTC,
the reverse of the spec's ETH→BNB→BTC. -/
theorem scenario_unique_triangle :
    find_correct_triangles catalog8 = [[ethbtc, bnbeth, bnbbtc]] ∧
      chainAssign [ethbtc, bnbeth, bnbbtc] = some (bnbeth, ethbtc, bnbbtc) ∧
      triangleCode [ethbtc, bnbeth, bnbbtc] = some "BNB-ETH-BTC" := by
  refine ⟨by decide, by decide, by decide⟩

/-- `innerScan` only returns indices inside the scanned list, and the returned
index really is a match for `e1`. -/
lemma innerScan_sound (e1 : TradingPair) :
    ∀ (l : List TradingPair) (j : Nat), innerScan e1 l = some j →
      ∃ h : j < l.length, e1.right = (l.get ⟨j, h⟩).left := by
  intro l
  induction l with
  | nil => intro j h; simp [innerScan] at h
  | cons e2 rest ih =>
    intro j h
    rw [innerScan] at h
    by_cases hc : e1.right = e2.left
    · rw [if_pos hc] at h
      obtain rfl : 0 = j := Option.some.inj h
      exact ⟨Nat.succ_pos _, hc⟩
    · rw [if_neg hc] at h
      obtain ⟨j', hj', rfl⟩ := Option.map_eq_some'.mp h
      obtain ⟨hlt, hmatch⟩ := ih j' hj'
      exact ⟨Nat.succ_lt_succ hlt, hmatch⟩

/-- `outerScan` only returns an outer index inside the scanned list, together
with a successful inner scan at that element. -/
lemma outerScan_sound (tps : List TradingPair) :
    ∀ (l : List TradingPair) (i j : Nat), outerScan tps l = some (i, j) →
      ∃ h : i < l.length, innerScan (l.get ⟨i, h⟩) tps = some j := by
  intro l
  induction l with
  | nil => intro i j h; simp [outerScan] at h
  | cons e1 rest ih =>
    intro i j h
    rw [outerScan] at h
    cases hinner : innerScan e1 tps with
    | some c2 =>
      rw [hinner] at h
      have h' := Option.some.inj h
      rw [Prod.mk.injEq] at h'
      obtain ⟨rfl, rfl⟩ := h'
      exact ⟨Nat.succ_pos _, hinner⟩
    | none =>
      rw [hinner] at h
      obtain ⟨⟨i', j'⟩, hij', heq⟩ := Option.map_eq_some'.mp h
      rw [Prod.mk.injEq] at heq
      obtain ⟨rfl, rfl⟩ := heq
      obtain ⟨hlt, hmatch⟩ := ih i' j' hij'
      exact ⟨Nat.succ_lt_succ hlt, hmatch⟩

/-- Python indexing at a nonnegative in-range-or-not index is plain `get?`. -/
lemma pyGet_natCast (l : List TradingPair) (k : Nat) :
    pyGet l (k : Int) = l.get? k := by
  have h1 : ¬((k : Int) < 0) := by omega
  simp only [pyGet, if_neg h1, if_pos (by omega : (0 : Int) ≤ (k : Int)),
    Int.toNat_natCast]

/-- C10: when the first chain match is at distinct indices `i ≠ j` of a
3-element combination, `len(trading_pairs) - i - j` is exactly the remaining
third index, so the assigned `AB`, `BC`, `AC` are the members at three
pairwise-distinct positions. -/
theorem third_index_is_the_remaining_one (tps : List TradingPair) (i j : Nat)
    (hlen : tps.length = 3) (hm : findChainMatch tps = some (i, j)) (hij : i ≠ j) :
    ∃ k : Nat, k < 3 ∧ k ≠ i ∧ k ≠ j ∧ (k : Int) = (tps.length : Int) - i - j ∧
      ∃ ab bc ac, tps.get? i = some ab ∧ tps.get? j = some bc ∧
        tps.get? k = some ac ∧ chainAssign tps = some (ab, bc, ac) := by
  obtain ⟨hi, hinner⟩ := outerScan_sound tps tps i j hm
  obtain ⟨hj, -⟩ := innerScan_sound _ tps j hinner
  rw [hlen] at hi hj
  obtain ⟨ab, hab⟩ : ∃ ab, tps.get? i = some ab :=
    ⟨_, List.get?_eq_get (by omega)⟩
  obtain ⟨bc, hbc⟩ : ∃ bc, tps.get? j = some bc :=
    ⟨_, List.get?_eq_get (by omega)⟩
  obtain ⟨ac, hac⟩ : ∃ ac, tps.get? (3 - i - j) = some ac :=
    ⟨_, List.get?_eq_get (by omega)⟩
  refine ⟨3 - i - j, by omega, by omega, by omega, by omega,
    ab, bc, ac, hab, hbc, hac, ?_⟩
  simp only [chainAssign, hm]
  have hx : ((tps.length : Int) - i - j) = ((3 - i - j : Nat) : Int) := by omega
  rw [hx, pyGet_natCast, hab, hbc, hac]

/-- Witness for C10 on §8's scenario triangle, whose first match is at
`(count1, count2) = (1, 0)`. -/
theorem third_index_is_the_remaining_one_witness :
    findChainMatch catalog8 = some (1, 0) ∧
      ∃ k : Nat, k < 3 ∧ k ≠ 1 ∧ k ≠ 0 ∧
        (k : Int) = (catalog8.length : Int) - 1 - 0 ∧
        ∃ ab bc ac, catalog8.get? 1 = some ab ∧ catalog8.get? 0 = some bc ∧
          catalog8.get? k = some ac ∧ chainAssign catalog8 = some (ab, bc, ac) :=
  ⟨by decide, third_index_is_the_remaining_one catalog8 1 0 (by decide)
    (by decide) (by decide)⟩

/-- C2: once the canonical legs are assigned and all three legs have quotes
with positive prices, evaluation publishes under the triangle code an entry
whose flag is `"YES"` exactly when
`forwardRate = ask(AB) * ask(BC) * (1 / bid(AC)) < 1` or
`backwardRate = bid(AB) * bid(BC) * (1 / ask(AC)) > 1`,
and `"NO"` exactly otherwise. -/
theorem evaluation_reports_rate_conditions (store : BookTicker)
    (tps : List TradingPair) (ab bc ac : TradingPair) (qAB qBC qAC : Quote)
    (hchain : chainAssign tps = some (ab, bc, ac))
    (hab : store ab.symbol = some qAB) (hbc : store bc.symbol = some qBC)
    (hac : store ac.symbol = some qAC)
    (hpos : 0 < qAB.a ∧ 0 < qAB.b ∧ 0 < qBC.a ∧ 0 < qBC.b ∧
      0 < qAC.a ∧ 0 < qAC.b) :
    ∃ e : ResultEntry, evalTriangle store tps = some (arbitrage_code ab bc, e) ∧
      (e.flag = "YES" ↔
        qAB.a * qBC.a * (1 / qAC.b) < 1 ∨ qAB.b * qBC.b * (1 / qAC.a) > 1) ∧
      (e.flag = "NO" ↔
        ¬(qAB.a * qBC.a * (1 / qAC.b) < 1 ∨ qAB.b * qBC.b * (1 / qAC.a) > 1)) := by
  have hguard : ¬(qAC.b = 0 ∨ qAC.a = 0) := by
    rintro (h | h)
    · exact absurd h (ne_of_gt hpos.2.2.2.2.2)
    · exact absurd h (ne_of_gt hpos.2.2.2.2.1)
  simp only [evalTriangle, hchain, hab, hbc, hac, if_neg hguard]
  refine ⟨_, rfl, ?_, ?_⟩
  · show (if qAB.a * qBC.a * (1 / qAC.b) < 1 ∨ qAB.b * qBC.b * (1 / qAC.a) > 1
        then "YES" else "NO") = "YES" ↔ _
    split_ifs with hcond
    · exact iff_of_true rfl hcond
    · exact iff_of_false (by decide) hcond
  · show (if qAB.a * qBC.a * (1 / qAC.b) < 1 ∨ qAB.b * qBC.b * (1 / qAC.a) > 1
        then "YES" else "NO") = "NO" ↔ _
    split_ifs with hcond
    · exact iff_of_false (by decide) (not_not_intro hcond)
    · exact iff_of_true rfl hcond

/-- Witness for C2 on §8's scenario quotes:
`ETHBTC {ask 0.05, bid 0.0499}`, `BNBETH {ask 0.15, bid 0.149}`,
`BNBBTC {ask 0.0076, bid 0.0075}`. -/
def store8 : BookTicker :=
  buildStore [("ETHBTC", ⟨5/100, 499/10000⟩), ("BNBETH", ⟨15/100, 149/1000⟩),
    ("BNBBTC", ⟨76/10000, 75/10000⟩)]

/-- Witness for C2: the theorem at §8's scenario triangle and quotes. -/
theorem evaluation_reports_rate_conditions_witness :
    chainAssign [ethbtc, bnbeth, bnbbtc] = some (bnbeth, ethbtc, bnbbtc) ∧
      store8 bnbeth.symbol = some ⟨15/100, 149/1000⟩ ∧
      store8 ethbtc.symbol = some ⟨5/100, 499/10000⟩ ∧
      store8 bnbbtc.symbol = some ⟨76/10000, 75/10000⟩ ∧
      ∃ e : ResultEntry,
        evalTriangle store8 [ethbtc, bnbeth, bnbbtc] =
          some (arbitrage_code bnbeth ethbtc, e) ∧
        (e.flag = "YES" ↔
          (15/100 : ℚ) * (5/100) * (1 / (75/10000)) < 1 ∨
            (149/1000 : ℚ) * (499/10000) * (1 / (76/10000)) > 1) ∧
        (e.flag = "NO" ↔
          ¬((15/100 : ℚ) * (5/100) * (1 / (75/10000)) < 1 ∨
            (149/1000 : ℚ) * (499/10000) * (1 / (76/10000)) > 1)) :=
  ⟨by decide, rfl, rfl, rfl,
    evaluation_reports_rate_conditions store8 [ethbtc, bnbeth, bnbbtc]
      bnbeth ethbtc bnbbtc ⟨15/100, 149/1000⟩ ⟨5/100, 499/10000⟩
      ⟨76/10000, 75/10000⟩ (by decide) rfl rfl rfl
      (by refine ⟨?_, ?_, ?_, ?_, ?_, ?_⟩ <;> norm_num)⟩

/-- C3 (amended): with the legs assigned and all three quotes present,
evaluation raises exactly when the closing leg `AC`'s bid or ask is zero — the
only two divisors — and in that case nothing is published: the prior result
map is returned unchanged. -/
theorem evaluation_raises_iff_closing_quote_zero (store : BookTicker)
    (res : ResultMap) (tps : List TradingPair) (ab bc ac : TradingPair)
    (qAB qBC qAC : Quote)
    (hchain : chainAssign tps = some (ab, bc, ac))
    (hab : store ab.symbol = some qAB) (hbc : store bc.symbol = some qBC)
    (hac : store ac.symbol = some qAC) :
    (evalTriangle store tps = none ↔ (qAC.b = 0 ∨ qAC.a = 0)) ∧
      ((qAC.b = 0 ∨ qAC.a = 0) → calcArb store res tps = res) := by
  constructor
  · simp only [evalTriangle, hchain, hab, hbc, hac]
    split_ifs with h <;> simp [h]
  · intro h
    simp only [calcArb, evalTriangle, hchain, hab, hbc, hac, if_pos h]

/-- The quotes of §8's scenario, except that `BNBETH`'s ask price is zero. -/
def storeZeroAsk : BookTicker :=
  buildStore [("ETHBTC", ⟨5/100, 499/10000⟩), ("BNBETH", ⟨0, 149/1000⟩),
    ("BNBBTC", ⟨76/10000, 75/10000⟩)]

/-- The entry that `calculate_triangular_arbitrage` publishes from
`storeZeroAsk` — note the zero ask price on the `BNBETH` leg. -/
def zeroAskEntry : ResultEntry :=
  ⟨[("BNBETH", 0), ("ETHBTC", 5/100), ("BNBBTC", 76/10000)],
    [("BNBETH", 149/1000), ("ETHBTC", 499/10000), ("BNBBTC", 75/10000)], "YES"⟩

/-- C3 counterexample: a zero ask on leg `AB` does not abort evaluation — the
tick is evaluated, reported as an arbitrage (`0 < 1`), and published over the
previously empty result map. -/
theorem zero_ask_leg_still_published :
    storeZeroAsk bnbeth.symbol = some ⟨0, 149/1000⟩ ∧
      evalTriangle storeZeroAsk [ethbtc, bnbeth, bnbbtc] =
        some ("BNB-ETH-BTC", zeroAskEntry) ∧
      zeroAskEntry.flag = "YES" ∧
      emptyResult "BNB-ETH-BTC" = none ∧
      calcArb storeZeroAsk emptyResult [ethbtc, bnbeth, bnbbtc] "BNB-ETH-BTC" =
        some zeroAskEntry := by
  have hchain : chainAssign [ethbtc, bnbeth, bnbbtc] = some (bnbeth, ethbtc, bnbbtc) := by
    decide
  have hab : storeZeroAsk bnbeth.symbol = some ⟨0, 149/1000⟩ := rfl
  have hbc : storeZeroAsk ethbtc.symbol = some ⟨5/100, 499/10000⟩ := rfl
  have hac : storeZeroAsk bnbbtc.symbol = some ⟨76/10000, 75/10000⟩ := rfl
  have hev : evalTriangle storeZeroAsk [ethbtc, bnbeth, bnbbtc] =
      some ("BNB-ETH-BTC", zeroAskEntry) := by
    simp only [evalTriangle, hchain, hab, hbc, hac]
    rw [if_neg (by norm_num), if_pos (Or.inl (by norm_num))]
    rfl
  refine ⟨hab, hev, rfl, rfl, ?_⟩
  simp only [calcArb, hev, publish, if_pos rfl, if_true]

/-- A triangle only ever reaches the evaluator with all three legs quoted:
`on_message` guards every invocation with `count == 3`. -/
lemma invoked_ready {store : BookTicker} :
    ∀ {ts : List (List TradingPair)} {t : List TradingPair},
      t ∈ invoked store ts → countReady store t = 3 := by
  intro ts
  induction ts with
  | nil => intro t ht; simp [invoked] at ht
  | cons u rest ih =>
    intro t ht
    rw [invoked] at ht
    by_cases h1 : countReady store u = 3
    · rw [if_pos h1] at ht
      by_cases h2 : (evalTriangle store u).isSome = true
      · rw [if_pos h2] at ht
        rcases List.mem_cons.mp ht with rfl | h
        · exact h1
        · exact ih h
      · rw [if_neg h2] at ht
        obtain rfl := List.mem_singleton.mp ht
        exact h1
    · rw [if_neg h1] at ht
      exact ih ht

/-- A ready count of 3 on a 3-leg triangle means every leg has a quote. -/
lemma countReady_all_quoted {store : BookTicker} {t : List TradingPair}
    (hlen : t.length = 3) (h : countReady store t = 3) :
    ∀ p ∈ t, (store p.symbol).isSome := by
  have hfull : (t.filter (fun p => (store p.symbol).isSome)).length = t.length :=
    h.trans hlen.symm
  exact List.filter_length_eq_length.mp hfull

/-- A symbol present after an update was either the updated symbol or was
already present. -/
lemma updateStore_isSome {st : BookTicker} {sym s : String} {q : Quote}
    (h : ((updateStore st sym q) s).isSome) : s = sym ∨ (st s).isSome := by
  by_cases hs : s = sym
  · exact Or.inl hs
  · right
    rw [updateStore] at h
    rwa [if_neg hs] at h

/-- A symbol present in a store built from a tick sequence was ticked. -/
lemma buildStore_isSome {ticks : List (String × Quote)} {s : String}
    (h : ((buildStore ticks) s).isSome) : s ∈ ticks.map Prod.fst := by
  suffices H : ∀ (init : BookTicker) (l : List (String × Quote)),
      ((l.foldl (fun st x => updateStore st x.1 x.2) init) s).isSome →
        (init s).isSome ∨ s ∈ l.map Prod.fst by
    rcases H emptyStore ticks h with h' | h'
    · simp [emptyStore] at h'
    · exact h'
  intro init l
  induction l generalizing init with
  | nil => intro h'; exact Or.inl h'
  | cons x rest ih =>
    intro h'
    rcases ih (updateStore init x.1 x.2) h' with h'' | h''
    · rcases updateStore_isSome h'' with h3 | h3
      · exact Or.inr (by simp [h3])
      · exact Or.inl h3
    · exact Or.inr (by simp [h''])

/-- C4 (amended): on a tick for symbol `sym`, the dispatch loop of `on_message`
invokes the evaluator for exactly the triangles whose three legs are all
quoted — whether or not the triangle references `sym` plays no role
(stated here when no evaluation raises, so the loop runs to completion). -/
theorem dispatcher_reevaluates_every_ready_triangle (st : BookTicker)
    (sym : String) (q : Quote) (triangles : List (List TradingPair))
    (hok : ∀ u ∈ triangles, countReady (updateStore st sym q) u = 3 →
      (evalTriangle (updateStore st sym q) u).isSome)
    (t : List TradingPair) :
    t ∈ invoked (updateStore st sym q) triangles ↔
      t ∈ triangles ∧ countReady (updateStore st sym q) t = 3 := by
  revert hok
  induction triangles with
  | nil => intro hok; simp [invoked]
  | cons u rest ih =>
    intro hok
    have hok' : ∀ u' ∈ rest, countReady (updateStore st sym q) u' = 3 →
        (evalTriangle (updateStore st sym q) u').isSome :=
      fun u' hu' => hok u' (List.mem_cons_of_mem _ hu')
    rw [invoked]
    by_cases h1 : countReady (updateStore st sym q) u = 3
    · rw [if_pos h1, if_pos (hok u (List.mem_cons_self _ _) h1)]
      constructor
      · intro ht
        rcases List.mem_cons.mp ht with rfl | h
        · exact ⟨List.mem_cons_self _ _, h1⟩
        · obtain ⟨hm, hr⟩ := (ih hok').mp h
          exact ⟨List.mem_cons_of_mem _ hm, hr⟩
      · rintro ⟨hm, hr⟩
        rcases List.mem_cons.mp hm with rfl | hm'
        · exact List.mem_cons_self _ _
        · exact List.mem_cons_of_mem _ ((ih hok').mpr ⟨hm', hr⟩)
    · rw [if_neg h1]
      constructor
      · intro ht
        obtain ⟨hm, hr⟩ := (ih hok').mp ht
        exact ⟨List.mem_cons_of_mem _ hm, hr⟩
      · rintro ⟨hm, hr⟩
        rcases List.mem_cons.mp hm with rfl | hm'
        · exact absurd hr h1
        · exact (ih hok').mpr ⟨hm', hr⟩

/-- The pair A/B of the dispatch scenarios. -/
def pab : TradingPair := ⟨"PAB", "A", "B"⟩

/-- The pair B/C of the dispatch scenarios. -/
def pbc : TradingPair := ⟨"QBC", "B", "C"⟩

/-- The pair A/C of the dispatch scenarios. -/
def pac : TradingPair := ⟨"RAC", "A", "C"⟩

/-- The triangle over symbols `PAB`, `QBC`, `RAC` of the dispatch scenarios. -/
def triPQR : List TradingPair := [pab, pbc, pac]

/-- A store with all three legs of `triPQR` quoted (zero quotes, so the
evaluator raises and no arithmetic is involved). -/
def storePQR : BookTicker :=
  buildStore [("PAB", ⟨0, 0⟩), ("QBC", ⟨0, 0⟩), ("RAC", ⟨0, 0⟩)]

/-- C4 counterexample: a tick for the symbol `XOTHER`, referenced by no leg of
`triPQR`, still makes the dispatcher invoke the evaluator on `triPQR` (all its
legs being quoted from earlier ticks). -/
theorem unrelated_tick_reevaluates_triangle :
    (∀ p ∈ triPQR, p.symbol ≠ "XOTHER") ∧
      triPQR ∈ invoked (updateStore storePQR "XOTHER" ⟨0, 0⟩) [triPQR] := by
  refine ⟨by decide, by decide⟩

/-- A store with all three legs of `triPQR` carrying ask 1, bid 1. -/
def storePQRone : BookTicker :=
  buildStore [("PAB", ⟨1, 1⟩), ("QBC", ⟨1, 1⟩), ("RAC", ⟨1, 1⟩)]

/-- The entry evaluation publishes for `triPQR` from unit quotes. -/
def entryPQRone : ResultEntry :=
  ⟨[("PAB", 1), ("QBC", 1), ("RAC", 1)], [("PAB", 1), ("QBC", 1), ("RAC", 1)], "NO"⟩

/-- Witness for C4 (amended) on a tick for the unrelated symbol `XOTHER`. -/
theorem dispatcher_reevaluates_every_ready_triangle_witness :
    (∀ u ∈ [triPQR], countReady (updateStore storePQRone "XOTHER" ⟨1, 1⟩) u = 3 →
      (evalTriangle (updateStore storePQRone "XOTHER" ⟨1, 1⟩) u).isSome) ∧
      (triPQR ∈ invoked (updateStore storePQRone "XOTHER" ⟨1, 1⟩) [triPQR] ↔
        triPQR ∈ [triPQR] ∧
          countReady (updateStore storePQRone "XOTHER" ⟨1, 1⟩) triPQR = 3) := by
  have hchain : chainAssign triPQR = some (pab, pbc, pac) := by decide
  have h1 : (updateStore storePQRone "XOTHER" ⟨1, 1⟩) pab.symbol = some ⟨1, 1⟩ := rfl
  have h2 : (updateStore storePQRone "XOTHER" ⟨1, 1⟩) pbc.symbol = some ⟨1, 1⟩ := rfl
  have h3 : (updateStore storePQRone "XOTHER" ⟨1, 1⟩) pac.symbol = some ⟨1, 1⟩ := rfl
  have hev : evalTriangle (updateStore storePQRone "XOTHER" ⟨1, 1⟩) triPQR =
      some ("A-B-C", entryPQRone) := by
    simp only [evalTriangle, hchain, h1, h2, h3]
    rw [if_neg (by norm_num), if_neg (by norm_num)]
    rfl
  have hok : ∀ u ∈ [triPQR],
      countReady (updateStore storePQRone "XOTHER" ⟨1, 1⟩) u = 3 →
        (evalTriangle (updateStore storePQRone "XOTHER" ⟨1, 1⟩) u).isSome := by
    intro u hu _
    obtain rfl := List.mem_singleton.mp hu
    rw [hev]
    rfl
  exact ⟨hok, dispatcher_reevaluates_every_ready_triangle storePQRone "XOTHER"
    ⟨1, 1⟩ [triPQR] hok triPQR⟩

/-- C5: on any tick after any tick history (starting from the empty store), a
triangle is only handed to the evaluator once all three of its legs are
quoted, and each quoted leg symbol was carried by this tick or an earlier
one. -/
theorem evaluation_only_after_all_legs_quoted (ticks : List (String × Quote))
    (sym : String) (q : Quote) (triangles : List (List TradingPair))
    (t : List TradingPair) (hlen : t.length = 3)
    (hin : t ∈ invoked (updateStore (buildStore ticks) sym q) triangles) :
    countReady (updateStore (buildStore ticks) sym q) t = 3 ∧
      ∀ p ∈ t, p.symbol = sym ∨ p.symbol ∈ ticks.map Prod.fst := by
  have h3 := invoked_ready hin
  refine ⟨h3, fun p hp => ?_⟩
  have hs := countReady_all_quoted hlen h3 p hp
  rcases updateStore_isSome hs with h | h
  · exact Or.inl h
  · exact Or.inr (buildStore_isSome h)

/-- Witness for C5: legs `PAB`, `QBC` ticked earlier, leg `RAC` ticked now. -/
theorem evaluation_only_after_all_legs_quoted_witness :
    triPQR.length = 3 ∧
      triPQR ∈ invoked
        (updateStore (buildStore [("PAB", ⟨0, 0⟩), ("QBC", ⟨0, 0⟩)]) "RAC" ⟨0, 0⟩)
        [triPQR] ∧
      (countReady
          (updateStore (buildStore [("PAB", ⟨0, 0⟩), ("QBC", ⟨0, 0⟩)]) "RAC" ⟨0, 0⟩)
          triPQR = 3 ∧
        ∀ p ∈ triPQR, p.symbol = "RAC" ∨
          p.symbol ∈ ([("PAB", (⟨0, 0⟩ : Quote)), ("QBC", ⟨0, 0⟩)].map Prod.fst)) :=
  ⟨by decide, by decide,
    evaluation_only_after_all_legs_quoted [("PAB", ⟨0, 0⟩), ("QBC", ⟨0, 0⟩)]
      "RAC" ⟨0, 0⟩ [triPQR] triPQR (by decide) (by decide)⟩

/-- §8's scenario quotes, except that `BNBBTC` (the closing leg `AC`) has a
zero bid price. -/
def storeZeroBidAC : BookTicker :=
  buildStore [("ETHBTC", ⟨5/100, 499/10000⟩), ("BNBETH", ⟨15/100, 149/1000⟩),
    ("BNBBTC", ⟨76/10000, 0⟩)]

/-- Witness for C3 (amended): a zero bid on the closing leg `AC`. -/
theorem evaluation_raises_iff_closing_quote_zero_witness :
    chainAssign [ethbtc, bnbeth, bnbbtc] = some (bnbeth, ethbtc, bnbbtc) ∧
      storeZeroBidAC bnbeth.symbol = some ⟨15/100, 149/1000⟩ ∧
      storeZeroBidAC ethbtc.symbol = some ⟨5/100, 499/10000⟩ ∧
      storeZeroBidAC bnbbtc.symbol = some ⟨76/10000, 0⟩ ∧
      ((evalTriangle storeZeroBidAC [ethbtc, bnbeth, bnbbtc] = none ↔
          ((0 : ℚ) = 0 ∨ (76/10000 : ℚ) = 0)) ∧
        (((0 : ℚ) = 0 ∨ (76/10000 : ℚ) = 0) →
          calcArb storeZeroBidAC emptyResult [ethbtc, bnbeth, bnbbtc] =
            emptyResult)) :=
  ⟨by decide, rfl, rfl, rfl,
    evaluation_raises_iff_closing_quote_zero storeZeroBidAC emptyResult
      [ethbtc, bnbeth, bnbbtc] bnbeth ethbtc bnbbtc ⟨15/100, 149/1000⟩
      ⟨5/100, 499/10000⟩ ⟨76/10000, 0⟩ (by decide) rfl rfl rfl⟩

/-- C9 (amended): parsing the derived code of a triangle's canonical legs
recovers the ordered asset triple, provided no asset code contains the
separator character `'-'`. -/
theorem code_roundtrip (tps : List TradingPair) (ab bc ac : TradingPair)
    (hchain : chainAssign tps = some (ab, bc, ac))
    (h1 : '-' ∉ ab.left.data) (h2 : '-' ∉ ab.right.data)
    (h3 : '-' ∉ bc.right.data) :
    parseCode (arbitrage_code ab bc) = [ab.left, ab.right, bc.right] := by
  have hne : ∀ (s : String), '-' ∉ s.data → ∀ x ∈ s.data, ¬(x == '-') = true := by
    intro s hs x hx hbeq
    rw [beq_iff_eq] at hbeq
    subst hbeq
    exact hs hx
  have hdata : (arbitrage_code ab bc).data =
      ab.left.data ++ '-' :: (ab.right.data ++ '-' :: bc.right.data) := by
    simp [arbitrage_code, String.data_append]
  rw [parseCode, hdata]
  simp only [List.splitOn]
  rw [List.splitOnP_first _ _ (hne _ h1) '-' (beq_self_eq_true _)
      (ab.right.data ++ '-' :: bc.right.data),
    List.splitOnP_first _ _ (hne _ h2) '-' (beq_self_eq_true _) bc.right.data,
    List.splitOnP_eq_single _ _ (hne _ h3)]
  rfl

/-- Witness for C9 (amended) on §8's scenario triangle. -/
theorem code_roundtrip_witness :
    chainAssign [ethbtc, bnbeth, bnbbtc] = some (bnbeth, ethbtc, bnbbtc) ∧
      '-' ∉ "BNB".data ∧ '-' ∉ "ETH".data ∧ '-' ∉ "BTC".data ∧
      parseCode (arbitrage_code bnbeth ethbtc) = ["BNB", "ETH", "BTC"] :=
  ⟨by decide, by decide, by decide, by decide,
    code_roundtrip [ethbtc, bnbeth, bnbbtc] bnbeth ethbtc bnbbtc (by decide)
      (by decide) (by decide) (by decide)⟩

/-- A pair whose base asset contains the separator character. -/
def hy1 : TradingPair := ⟨"s1", "X-Y", "Z"⟩

/-- The pair chaining `Z` to `W`. -/
def hy2 : TradingPair := ⟨"s2", "Z", "W"⟩

/-- The closing pair of the hyphenated triangle. -/
def hy3 : TradingPair := ⟨"s3", "X-Y", "W"⟩

/-- C9 counterexample: a triangle accepted by the finder whose asset `"X-Y"`
contains the separator; its derived code `"X-Y-Z-W"` splits into four pieces,
not the ordered triple it was built from. -/
theorem code_roundtrip_cex :
    [hy1, hy2, hy3] ∈ find_correct_triangles [hy1, hy2, hy3] ∧
      chainAssign [hy1, hy2, hy3] = some (hy1, hy2, hy3) ∧
      arbitrage_code hy1 hy2 = "X-Y-Z-W" ∧
      parseCode (arbitrage_code hy1 hy2) ≠ ["X-Y", "Z", "W"] := by
  refine ⟨by decide, by decide, by decide, by decide⟩

/-- A three-element asset set of cardinality at most two repeats an element. -/
lemma triple_card_le_two {a b c : String}
    (h : ({a, b, c} : Finset String).card ≤ 2) : a = b ∨ a = c ∨ b = c := by
  by_contra hcon
  push_neg at hcon
  obtain ⟨hab, hac, hbc⟩ := hcon
  have hcard : ({a, b, c} : Finset String).card = 3 := by
    rw [Finset.card_insert_of_not_mem (by simp [hab, hac]),
      Finset.card_insert_of_not_mem (by simp [hbc]), Finset.card_singleton]
  omega

/-- A three-element asset set of cardinality one is constant. -/
lemma triple_card_eq_one {a b c : String}
    (h : ({a, b, c} : Finset String).card = 1) : a = b ∧ a = c := by
  obtain ⟨x, hx⟩ := Finset.card_eq_one.mp h
  have ha : a ∈ ({a, b, c} : Finset String) := by simp
  have hb : b ∈ ({a, b, c} : Finset String) := by simp
  have hc : c ∈ ({a, b, c} : Finset String) := by simp
  rw [hx, Finset.mem_singleton] at ha hb hc
  exact ⟨ha.trans hb.symm, ha.trans hc.symm⟩

/-- On three pairs spanning exactly three assets whose (base, quote) values are
pairwise distinct, some pair's quote equals some pair's base: otherwise bases
and quotes would split the three assets into two disjoint blocks, forcing two
identical pairs. -/
lemma match_exists (p q r : TradingPair)
    (hcard : (({p.left, q.left, r.left} : Finset String) ∪
      {p.right, q.right, r.right}).card = 3)
    (hdpq : p.left ≠ q.left ∨ p.right ≠ q.right)
    (hdpr : p.left ≠ r.left ∨ p.right ≠ r.right)
    (hdqr : q.left ≠ r.left ∨ q.right ≠ r.right) :
    p.right = p.left ∨ p.right = q.left ∨ p.right = r.left ∨
      q.right = p.left ∨ q.right = q.left ∨ q.right = r.left ∨
      r.right = p.left ∨ r.right = q.left ∨ r.right = r.left := by
  by_contra hcon
  push_neg at hcon
  obtain ⟨h1, h2, h3, h4, h5, h6, h7, h8, h9⟩ := hcon
  have hdisj : Disjoint ({p.left, q.left, r.left} : Finset String)
      {p.right, q.right, r.right} := by
    rw [Finset.disjoint_right]
    intro a haR haL
    simp only [Finset.mem_insert, Finset.mem_singleton] at haR haL
    rcases haR with rfl | rfl | rfl <;> rcases haL with h | h | h <;>
      first
        | exact h1 h | exact h2 h | exact h3 h
        | exact h4 h | exact h5 h | exact h6 h
        | exact h7 h | exact h8 h | exact h9 h
  have hunion : ({p.left, q.left, r.left} : Finset String).card +
      ({p.right, q.right, r.right} : Finset String).card = 3 := by
    rw [← Finset.card_union_of_disjoint hdisj]
    exact hcard
  have hLpos : 0 < ({p.left, q.left, r.left} : Finset String).card :=
    Finset.card_pos.mpr ⟨p.left, by simp⟩
  have hRpos : 0 < ({p.right, q.right, r.right} : Finset String).card :=
    Finset.card_pos.mpr ⟨p.right, by simp⟩
  rcases Nat.lt_or_ge ({p.left, q.left, r.left} : Finset String).card 2 with
    hsmall | hbig
  · have hone : ({p.left, q.left, r.left} : Finset String).card = 1 := by omega
    obtain ⟨hpq, hpr⟩ := triple_card_eq_one hone
    have hRle : ({p.right, q.right, r.right} : Finset String).card ≤ 2 := by omega
    rcases triple_card_le_two hRle with h | h | h
    · exact hdpq.elim (fun k => k hpq) (fun k => k h)
    · exact hdpr.elim (fun k => k hpr) (fun k => k h)
    · exact hdqr.elim (fun k => k (hpq.symm.trans hpr)) (fun k => k h)
  · have hone : ({p.right, q.right, r.right} : Finset String).card = 1 := by omega
    obtain ⟨hpqR, hprR⟩ := triple_card_eq_one hone
    have hLle : ({p.left, q.left, r.left} : Finset String).card ≤ 2 := by omega
    rcases triple_card_le_two hLle with h | h | h
    · exact hdpq.elim (fun k => k h) (fun k => k hpqR)
    · exact hdpr.elim (fun k => k h) (fun k => k hprR)
    · exact hdqr.elim (fun k => k h) (fun k => k (hpqR.symm.trans hprR))

/-- Once `AB = x` and `BC = y` chain (`x`'s quote is `y`'s base) inside a
mirror-free, value-distinct, non-degenerate combination spanning exactly the
three assets of `S`, the remaining pair `z` must be the closing leg: either
`(A, C)` or `(C, A)` where `A = x.left` and `C = y.right`. -/
lemma third_leg_closes (x y z : TradingPair) (S : Finset String)
    (hcard : S.card = 3)
    (hxl : x.left ∈ S) (hxr : x.right ∈ S) (hyr : y.right ∈ S)
    (hzl : z.left ∈ S) (hzr : z.right ∈ S)
    (hmxy : ¬(x.left = y.right ∧ x.right = y.left))
    (hmxz : ¬(x.left = z.right ∧ x.right = z.left))
    (hmyz : ¬(y.left = z.right ∧ y.right = z.left))
    (hdxz : x.left ≠ z.left ∨ x.right ≠ z.right)
    (hdyz : y.left ≠ z.left ∨ y.right ≠ z.right)
    (hnx : x.left ≠ x.right) (hny : y.left ≠ y.right) (hnz : z.left ≠ z.right)
    (hchain : x.right = y.left) :
    (z.left = x.left ∧ z.right = y.right) ∨
      (z.left = y.right ∧ z.right = x.left) := by
  have hBC : x.right ≠ y.right := by rw [hchain]; exact hny
  have hAC : x.left ≠ y.right := fun h => hmxy ⟨h, hchain⟩
  have hsub : ({x.left, x.right, y.right} : Finset String) ⊆ S := by
    intro a ha
    simp only [Finset.mem_insert, Finset.mem_singleton] at ha
    rcases ha with rfl | rfl | rfl
    · exact hxl
    · exact hxr
    · exact hyr
  have hS : ({x.left, x.right, y.right} : Finset String) = S := by
    apply Finset.eq_of_subset_of_card_le hsub
    rw [hcard, Finset.card_insert_of_not_mem (by simp [hnx, hAC]),
      Finset.card_insert_of_not_mem (by simp [hBC]), Finset.card_singleton]
  have hzl' : z.left ∈ ({x.left, x.right, y.right} : Finset String) := by
    rw [hS]; exact hzl
  have hzr' : z.right ∈ ({x.left, x.right, y.right} : Finset String) := by
    rw [hS]; exact hzr
  simp only [Finset.mem_insert, Finset.mem_singleton] at hzl' hzr'
  rcases hzl' with hl | hl | hl <;> rcases hzr' with hr | hr | hr
  · exact absurd (hl.trans hr.symm) hnz
  · exact (hdxz.elim (fun k => absurd hl.symm k) (fun k => absurd hr.symm k))
  · exact Or.inl ⟨hl, hr⟩
  · exact absurd ⟨hr.symm, hl.symm⟩ hmxz
  · exact absurd (hl.trans hr.symm) hnz
  · exact (hdyz.elim (fun k => absurd (hl.trans hchain).symm k)
      (fun k => absurd hr.symm k))
  · exact Or.inr ⟨hl, hr⟩
  · exact absurd ⟨hchain.symm.trans hr.symm, hl.symm⟩ hmyz
  · exact absurd (hl.trans hr.symm) hnz

/-- First match at `(0, 1)`: `AB = p`, `BC = q`, `AC = [p,q,r][3-0-1] = q`'s
complement `r`. -/
lemma chain_eval_01 (p q r : TradingPair) (h00 : ¬p.right = p.left)
    (h01 : p.right = q.left) : chainAssign [p, q, r] = some (p, q, r) := by
  have hin : innerScan p [p, q, r] = some 1 := by
    rw [innerScan, if_neg h00, innerScan, if_pos h01]
    rfl
  simp only [chainAssign, findChainMatch, outerScan, hin]
  rfl

/-- First match at `(0, 2)`: legs `(p, r, q)`. -/
lemma chain_eval_02 (p q r : TradingPair) (h00 : ¬p.right = p.left)
    (h01 : ¬p.right = q.left) (h02 : p.right = r.left) :
    chainAssign [p, q, r] = some (p, r, q) := by
  have hin : innerScan p [p, q, r] = some 2 := by
    rw [innerScan, if_neg h00, innerScan, if_neg h01, innerScan, if_pos h02]
    rfl
  simp only [chainAssign, findChainMatch, outerScan, hin]
  rfl

/-- First match at `(1, 0)`: legs `(q, p, r)`. -/
lemma chain_eval_10 (p q r : TradingPair) (h00 : ¬p.right = p.left)
    (h01 : ¬p.right = q.left) (h02 : ¬p.right = r.left)
    (h10 : q.right = p.left) : chainAssign [p, q, r] = some (q, p, r) := by
  have hip : innerScan p [p, q, r] = none := by
    rw [innerScan, if_neg h00, innerScan, if_neg h01, innerScan, if_neg h02,
      innerScan]
    rfl
  have hiq : innerScan q [p, q, r] = some 0 := by
    rw [innerScan, if_pos h10]
  simp only [chainAssign, findChainMatch, outerScan, hip, hiq]
  rfl

/-- First match at `(1, 2)`: legs `(q, r, p)`. -/
lemma chain_eval_12 (p q r : TradingPair) (h00 : ¬p.right = p.left)
    (h01 : ¬p.right = q.left) (h02 : ¬p.right = r.left)
    (h10 : ¬q.right = p.left) (h11 : ¬q.right = q.left)
    (h12 : q.right = r.left) : chainAssign [p, q, r] = some (q, r, p) := by
  have hip : innerScan p [p, q, r] = none := by
    rw [innerScan, if_neg h00, innerScan, if_neg h01, innerScan, if_neg h02,
      innerScan]
    rfl
  have hiq : innerScan q [p, q, r] = some 2 := by
    rw [innerScan, if_neg h10, innerScan, if_neg h11, innerScan, if_pos h12]
    rfl
  simp only [chainAssign, findChainMatch, outerScan, hip, hiq]
  rfl

/-- First match at `(2, 0)`: legs `(r, p, q)`. -/
lemma chain_eval_20 (p q r : TradingPair) (h00 : ¬p.right = p.left)
    (h01 : ¬p.right = q.left) (h02 : ¬p.right = r.left)
    (h10 : ¬q.right = p.left) (h11 : ¬q.right = q.left)
    (h12 : ¬q.right = r.left) (h20 : r.right = p.left) :
    chainAssign [p, q, r] = some (r, p, q) := by
  have hip : innerScan p [p, q, r] = none := by
    rw [innerScan, if_neg h00, innerScan, if_neg h01, innerScan, if_neg h02,
      innerScan]
    rfl
  have hiq : innerScan q [p, q, r] = none := by
    rw [innerScan, if_neg h10, innerScan, if_neg h11, innerScan, if_neg h12,
      innerScan]
    rfl
  have hir : innerScan r [p, q, r] = some 0 := by
    rw [innerScan, if_pos h20]
  simp only [chainAssign, findChainMatch, outerScan, hip, hiq, hir]
  rfl

/-- First match at `(2, 1)`: legs `(r, q, p)`. -/
lemma chain_eval_21 (p q r : TradingPair) (h00 : ¬p.right = p.left)
    (h01 : ¬p.right = q.left) (h02 : ¬p.right = r.left)
    (h10 : ¬q.right = p.left) (h11 : ¬q.right = q.left)
    (h12 : ¬q.right = r.left) (h20 : ¬r.right = p.left)
    (h21 : r.right = q.left) : chainAssign [p, q, r] = some (r, q, p) := by
  have hip : innerScan p [p, q, r] = none := by
    rw [innerScan, if_neg h00, innerScan, if_neg h01, innerScan, if_neg h02,
      innerScan]
    rfl
  have hiq : innerScan q [p, q, r] = none := by
    rw [innerScan, if_neg h10, innerScan, if_neg h11, innerScan, if_neg h12,
      innerScan]
    rfl
  have hir : innerScan r [p, q, r] = some 1 := by
    rw [innerScan, if_neg h20, innerScan, if_pos h21]
    rfl
  simp only [chainAssign, findChainMatch, outerScan, hip, hiq, hir]
  rfl

/-- C1 (amended): on a finder-accepted combination whose three pairs are
pairwise value-distinct and none of which quotes an asset against itself, the
evaluator's chain search always succeeds: it returns the three member pairs in
some order as `AB`, `BC`, `AC` with `AB`'s quote equal to `BC`'s base and `AC`
the closing leg (in one of its two orientations). -/
theorem accepted_distinct_triangle_chains (pairs t : List TradingPair)
    (hmem : t ∈ find_correct_triangles pairs)
    (hdist : t.Pairwise (fun a b => a.left ≠ b.left ∨ a.right ≠ b.right))
    (hnd : ∀ x ∈ t, x.left ≠ x.right) :
    ∃ ab bc ac, chainAssign t = some (ab, bc, ac) ∧ ab.right = bc.left ∧
      ((ac.left = ab.left ∧ ac.right = bc.right) ∨
        (ac.left = bc.right ∧ ac.right = ab.left)) ∧
      List.Perm [ab, bc, ac] t := by
  obtain ⟨⟨hsub, hlen⟩, hcit, hccp⟩ := mem_find_correct_triangles.mp hmem
  obtain ⟨p, q, r, rfl⟩ := List.length_eq_three.mp hlen
  rw [List.pairwise_cons] at hdist
  have hdpq : p.left ≠ q.left ∨ p.right ≠ q.right := hdist.1 q (by simp)
  have hdpr : p.left ≠ r.left ∨ p.right ≠ r.right := hdist.1 r (by simp)
  have hdqr : q.left ≠ r.left ∨ q.right ≠ r.right :=
    (List.pairwise_cons.mp hdist.2).1 r (by simp)
  have hnp : p.left ≠ p.right := hnd p (by simp)
  have hnq : q.left ≠ q.right := hnd q (by simp)
  have hnr : r.left ≠ r.right := hnd r (by simp)
  have hPW := (check_circular_pairs_eq_true_iff _).mp hccp
  rw [List.pairwise_cons] at hPW
  have hmpq : ¬(p.left = q.right ∧ p.right = q.left) := hPW.1 q (by simp)
  have hmpr : ¬(p.left = r.right ∧ p.right = r.left) := hPW.1 r (by simp)
  have hmqr : ¬(q.left = r.right ∧ q.right = r.left) :=
    (List.pairwise_cons.mp hPW.2).1 r (by simp)
  have hcard : (({p.left, q.left, r.left} : Finset String) ∪
      {p.right, q.right, r.right}).card = 3 := by
    have h := hcit
    rw [check_if_triangle] at h
    simpa using h
  have h00 : ¬p.right = p.left := fun h => hnp h.symm
  have h11 : ¬q.right = q.left := fun h => hnq h.symm
  have h22 : ¬r.right = r.left := fun h => hnr h.symm
  by_cases h01 : p.right = q.left
  · refine ⟨p, q, r, chain_eval_01 p q r h00 h01, h01, ?_, List.Perm.refl _⟩
    exact third_leg_closes p q r _ hcard (by simp) (by simp) (by simp) (by simp)
      (by simp) hmpq hmpr hmqr hdpr hdqr hnp hnq hnr h01
  by_cases h02 : p.right = r.left
  · refine ⟨p, r, q, chain_eval_02 p q r h00 h01 h02, h02, ?_,
      List.Perm.cons p (List.Perm.swap q r [])⟩
    exact third_leg_closes p r q _ hcard (by simp) (by simp) (by simp) (by simp)
      (by simp) hmpr hmpq (fun h => hmqr ⟨h.2.symm, h.1.symm⟩) hdpq
      (hdqr.imp Ne.symm Ne.symm) hnp hnr hnq h02
  by_cases h10 : q.right = p.left
  · refine ⟨q, p, r, chain_eval_10 p q r h00 h01 h02 h10, h10, ?_,
      List.Perm.swap p q [r]⟩
    exact third_leg_closes q p r _ hcard (by simp) (by simp) (by simp) (by simp)
      (by simp) (fun h => hmpq ⟨h.2.symm, h.1.symm⟩) hmqr hmpr hdqr hdpr
      hnq hnp hnr h10
  by_cases h12 : q.right = r.left
  · refine ⟨q, r, p, chain_eval_12 p q r h00 h01 h02 h10 h11 h12, h12, ?_,
      (List.Perm.cons q (List.Perm.swap p r [])).trans (List.Perm.swap p q [r])⟩
    exact third_leg_closes q r p _ hcard (by simp) (by simp) (by simp) (by simp)
      (by simp) hmqr (fun h => hmpq ⟨h.2.symm, h.1.symm⟩)
      (fun h => hmpr ⟨h.2.symm, h.1.symm⟩) (hdpq.imp Ne.symm Ne.symm)
      (hdpr.imp Ne.symm Ne.symm) hnq hnr hnp h12
  by_cases h20 : r.right = p.left
  · refine ⟨r, p, q, chain_eval_20 p q r h00 h01 h02 h10 h11 h12 h20, h20, ?_,
      (List.Perm.swap p r [q]).trans (List.Perm.cons p (List.Perm.swap q r []))⟩
    exact third_leg_closes r p q _ hcard (by simp) (by simp) (by simp) (by simp)
      (by simp) (fun h => hmpr ⟨h.2.symm, h.1.symm⟩)
      (fun h => hmqr ⟨h.2.symm, h.1.symm⟩) hmpq (hdqr.imp Ne.symm Ne.symm)
      hdpq hnr hnp hnq h20
  by_cases h21 : r.right = q.left
  · refine ⟨r, q, p, chain_eval_21 p q r h00 h01 h02 h10 h11 h12 h20 h21, h21,
      ?_, (List.Perm.swap q r [p]).trans
        ((List.Perm.cons q (List.Perm.swap p r [])).trans
          (List.Perm.swap p q [r]))⟩
    exact third_leg_closes r q p _ hcard (by simp) (by simp) (by simp) (by simp)
      (by simp) (fun h => hmqr ⟨h.2.symm, h.1.symm⟩)
      (fun h => hmpr ⟨h.2.symm, h.1.symm⟩) (fun h => hmpq ⟨h.2.symm, h.1.symm⟩)
      (hdpr.imp Ne.symm Ne.symm) (hdpq.imp Ne.symm Ne.symm) hnr hnq hnp h21
  · exfalso
    rcases match_exists p q r hcard hdpq hdpr hdqr with h|h|h|h|h|h|h|h|h
    exacts [h00 h, h01 h, h02 h, h10 h, h11 h, h12 h, h20 h, h21 h, h22 h]

/-- A first pair quoting asset `A` in `B`. -/
def dupA : TradingPair := ⟨"S1", "A", "B"⟩

/-- A second listing with the same base and quote assets as `dupA`. -/
def dupB : TradingPair := ⟨"S2", "A", "B"⟩

/-- The third pair, quoting `A` in `C`. -/
def dupC : TradingPair := ⟨"S3", "A", "C"⟩

/-- C1 counterexample: the combination `{(A,B), (A,B), (A,C)}` spans exactly
three assets and has no mirror pair, so the finder accepts it — yet no pair's
quote equals any pair's base, so the evaluator's chain search finds no match
and `AB`, `BC`, `AC` are never assigned. -/
theorem finder_accepts_unchainable_combination :
    [dupA, dupB, dupC] ∈ find_correct_triangles [dupA, dupB, dupC] ∧
      findChainMatch [dupA, dupB, dupC] = none ∧
      chainAssign [dupA, dupB, dupC] = none := by
  refine ⟨by decide, by decide, by decide⟩

/-- Witness for C1 (amended) on §8's scenario triangle. -/
theorem accepted_distinct_triangle_chains_witness :
    [ethbtc, bnbeth, bnbbtc] ∈ find_correct_triangles catalog8 ∧
      List.Pairwise (fun a b : TradingPair =>
        a.left ≠ b.left ∨ a.right ≠ b.right) [ethbtc, bnbeth, bnbbtc] ∧
      (∀ x ∈ [ethbtc, bnbeth, bnbbtc], x.left ≠ x.right) ∧
      (∃ ab bc ac, chainAssign [ethbtc, bnbeth, bnbbtc] = some (ab, bc, ac) ∧
        ab.right = bc.left ∧
        ((ac.left = ab.left ∧ ac.right = bc.right) ∨
          (ac.left = bc.right ∧ ac.right = ab.left)) ∧
        List.Perm [ab, bc, ac] [ethbtc, bnbeth, bnbbtc]) :=
  ⟨by decide, by decide, by decide,
    accepted_distinct_triangle_chains catalog8 [ethbtc, bnbeth, bnbbtc]
      (by decide) (by decide) (by decide)⟩
